import Mathlib

/-!
Verification of the diff-log / compaction engine ("pull source") of the
futures-signals-im crate, together with its map/vector diff types and the
fan-out broadcaster.

The Rust code is embedded shallowly:
* `im::HashMap` fields are modelled as association lists whose insert
  prepends the pair after erasing the old binding (so keys stay nodup and
  lookup matches hash-map lookup);
* `BTreeMap<DiffNumber, Diff>` is modelled as a function `Nat → Option Diff`
  together with the monotone counter `next_diff_index`; every key ever
  inserted is `< next_diff_index`, so the BTreeMap range scan
  `range(start..)` is modelled as a scan of the indices
  `start, …, next_diff_index - 1`;
* Rust panics (`unwrap`, explicit `panic!`) make the modelled operation
  return `none`.
-/

namespace SignalsIm

/-- Association-list lookup, modelling `im::HashMap::get` / `BTreeMap::get`. -/
def sLookup {K V : Type} [DecidableEq K] : List (K × V) → K → Option V
  | [], _ => none
  | p :: r, k => if p.1 = k then some p.2 else sLookup r k

/-- Association-list removal of a binding, modelling `remove`. -/
def sErase {K V : Type} [DecidableEq K] (l : List (K × V)) (k : K) : List (K × V) :=
  l.filter (fun p => decide (p.1 ≠ k))

/-- Association-list insert-or-overwrite, modelling `insert`. -/
def sInsert {K V : Type} [DecidableEq K] (l : List (K × V)) (k : K) (v : V) : List (K × V) :=
  (k, v) :: sErase l k

/-- Membership test, modelling `contains_key`. -/
def sContains {K V : Type} [DecidableEq K] (l : List (K × V)) (k : K) : Bool :=
  (sLookup l k).isSome

/-- Rebuild a hash map from a list of pairs where a later pair overwrites an
earlier pair with the same key, modelling `.into_iter().map(..).collect()`
into an `im::HashMap`. -/
def collectLastWins {K V : Type} [DecidableEq K] : List (K × V) → List (K × V)
  | [] => []
  | p :: rest =>
    let r := collectLastWins rest
    if (sLookup r p.1).isSome then r else p :: r

/-- `DiffMergeOutcome` from pull_source.rs: the five decisions a merge
policy can take when a new diff collides with an open previous diff. -/
inductive DiffMergeOutcome (Diff : Type) where
  | merge (d : Diff)
  | replace
  | ignore
  | keepBoth
  | discardBoth

/-- `DiffMergeResult` from pull_source.rs: an outcome plus an optional
reindexer for intermediary diffs. -/
structure DiffMergeResult (Diff Key : Type) where
  outcome : DiffMergeOutcome Diff
  reindex_intermediary_diffs : Option (Key → Key → Key)

namespace DiffMergeResult

def merge {Diff Key : Type} (d : Diff) : DiffMergeResult Diff Key :=
  ⟨DiffMergeOutcome.merge d, none⟩

def merge_and_reindex {Diff Key : Type} (d : Diff) (f : Key → Key → Key) :
    DiffMergeResult Diff Key :=
  ⟨DiffMergeOutcome.merge d, some f⟩

def replace {Diff Key : Type} : DiffMergeResult Diff Key :=
  ⟨DiffMergeOutcome.replace, none⟩

def replace_and_reindex {Diff Key : Type} (f : Key → Key → Key) :
    DiffMergeResult Diff Key :=
  ⟨DiffMergeOutcome.replace, some f⟩

def ignore {Diff Key : Type} : DiffMergeResult Diff Key :=
  ⟨DiffMergeOutcome.ignore, none⟩

def keep_both {Diff Key : Type} : DiffMergeResult Diff Key :=
  ⟨DiffMergeOutcome.keepBoth, none⟩

def discard_both {Diff Key : Type} : DiffMergeResult Diff Key :=
  ⟨DiffMergeOutcome.discardBoth, none⟩

def discard_both_and_reindex {Diff Key : Type} (f : Key → Key → Key) :
    DiffMergeResult Diff Key :=
  ⟨DiffMergeOutcome.discardBoth, some f⟩

end DiffMergeResult

/-- The `PullableDiff` trait from pull_source.rs, as a structure of
operations. `set_key` and `set_snapshot_key` are total here; the Rust
implementations panic on non-keyed variants, but every call site guards on
`get_key` / `get_snapshot_key` being present. `merge_with_previous` returns
`none` where the Rust implementation panics. -/
structure PullableDiffOps (Diff Key : Type) where
  get_key : Diff → Option Key
  get_snapshot_key : Diff → Option Key
  set_key : Diff → Key → Diff
  set_snapshot_key : Diff → Key → Diff
  merge_with_previous : Diff → Diff → Option (DiffMergeResult Diff Key)
  full_replace : Diff

/-- `StructrualSignalPullSource` from pull_source.rs (field for field). -/
structure PullSourceState (Diff Key : Type) where
  diffs : Nat → Option Diff
  signal_last_diff_numbers : List (Nat × Nat)
  diffs_per_key : List (Key × Nat)
  next_diff_index : Nat
  next_signal_id : Nat

/-- `StructrualSignalPullSource::new`. -/
def PullSourceState.new (Diff Key : Type) : PullSourceState Diff Key :=
  { diffs := fun _ => none
    signal_last_diff_numbers := []
    diffs_per_key := []
    next_diff_index := 1
    next_signal_id := 1 }

/-- `StructrualSignalPullSource::has_listening_signal`:
`signal_last_diff_numbers.len() > 0`. -/
def has_listening_signal {Diff Key : Type} (s : PullSourceState Diff Key) : Bool :=
  !s.signal_last_diff_numbers.isEmpty

/-- `StructrualSignalPullSource::update_intermediary_diffs`, unrolled over
the concrete index range `start_diff..next_diff_index`. Returns `none` on
the `panic!("Diff had a key but not a snapshot key")` path. -/
def updateIntermediaryDiffs {Diff Key : Type} (ops : PullableDiffOps Diff Key)
    (dm : Nat → Option Diff) (idxs : List Nat) (updater : Key → Key → Key) :
    Option (Nat → Option Diff) :=
  match idxs with
  | [] => some dm
  | i :: rest =>
    match dm i with
    | none => updateIntermediaryDiffs ops dm rest updater
    | some d =>
      match ops.get_key d with
      | none => updateIntermediaryDiffs ops dm rest updater
      | some k =>
        match ops.get_snapshot_key d with
        | none => none
        | some sk =>
          updateIntermediaryDiffs ops
            (fun j => if j = i then some (ops.set_key d (updater k sk)) else dm j)
            rest updater

/-- `StructrualSignalPullSource::add_diff`. Returns `none` exactly where the
Rust code panics (a dangling compaction-index entry, a merge-policy panic,
or the intermediary-reindex panic). -/
def add_diff {Diff Key : Type} [DecidableEq Key]
    (ops : PullableDiffOps Diff Key) (s : PullSourceState Diff Key) (diff0 : Diff) :
    Option (PullSourceState Diff Key) :=
  if has_listening_signal s = false then some s else
  match ops.get_key diff0 with
  | some diff_key =>
    match sLookup s.diffs_per_key diff_key with
    | some prev_diff_index =>
      match s.diffs prev_diff_index with
      | none => none
      | some prev_diff =>
        let diffs1 : Nat → Option Diff :=
          fun j => if j = prev_diff_index then none else s.diffs j
        let dpk1 := sErase s.diffs_per_key diff_key
        match ops.merge_with_previous diff0 prev_diff with
        | none => none
        | some result =>
          let maybe_diffs2 :=
            match result.reindex_intermediary_diffs with
            | some re =>
              updateIntermediaryDiffs ops diffs1
                (List.range' prev_diff_index (s.next_diff_index - prev_diff_index)) re
            | none => some diffs1
          match maybe_diffs2 with
          | none => none
          | some diffs2 =>
            match result.outcome with
            | DiffMergeOutcome.merge merged =>
              some { s with
                diffs := fun j => if j = s.next_diff_index then some merged else diffs2 j
                diffs_per_key := sInsert dpk1 diff_key s.next_diff_index
                next_diff_index := s.next_diff_index + 1 }
            | DiffMergeOutcome.replace =>
              some { s with
                diffs := fun j => if j = s.next_diff_index then some diff0 else diffs2 j
                diffs_per_key := sInsert dpk1 diff_key s.next_diff_index
                next_diff_index := s.next_diff_index + 1 }
            | DiffMergeOutcome.ignore =>
              some { s with
                diffs := fun j => if j = prev_diff_index then some prev_diff else diffs2 j
                diffs_per_key := sInsert dpk1 diff_key prev_diff_index }
            | DiffMergeOutcome.keepBoth =>
              some { s with
                diffs := fun j =>
                  if j = s.next_diff_index then some diff0
                  else if j = prev_diff_index then some prev_diff
                  else diffs2 j
                diffs_per_key := sInsert dpk1 diff_key s.next_diff_index
                next_diff_index := s.next_diff_index + 1 }
            | DiffMergeOutcome.discardBoth =>
              some { s with diffs := diffs2, diffs_per_key := dpk1 }
    | none =>
      some { s with
        diffs := fun j => if j = s.next_diff_index then some diff0 else s.diffs j
        diffs_per_key := sInsert s.diffs_per_key diff_key s.next_diff_index
        next_diff_index := s.next_diff_index + 1 }
  | none =>
    some { s with
      diffs := fun j => if j = s.next_diff_index then some diff0 else none
      diffs_per_key := []
      next_diff_index := s.next_diff_index + 1 }

/-- `StructrualSignalPullSource::pull_signal`. Returns the updated state and
the batch of diffs handed to the consumer. -/
def pull_signal {Diff Key : Type} [DecidableEq Key]
    (ops : PullableDiffOps Diff Key) (s : PullSourceState Diff Key)
    (signal_id : Nat) : PullSourceState Diff Key × List Diff :=
  let current_diff_number := s.next_diff_index - 1
  let maybe_last := sLookup s.signal_last_diff_numbers signal_id
  let s1 := { s with
    signal_last_diff_numbers :=
      sInsert s.signal_last_diff_numbers signal_id current_diff_number }
  match maybe_last with
  | some last =>
    if last = current_diff_number then (s1, [])
    else
      let s2 := { s1 with diffs_per_key := [] }
      let start_at := last + 1
      let diffs_in_range :=
        (List.range' start_at (s.next_diff_index - start_at)).filterMap s.diffs
      if diffs_in_range.any (fun d => (ops.get_key d).isNone)
      then (s2, [ops.full_replace])
      else (s2, diffs_in_range)
  | none => ({ s1 with diffs_per_key := [] }, [ops.full_replace])

/-- `StructrualSignalPullSource::update_keys`. -/
def update_keys {Diff Key : Type} [DecidableEq Key]
    (ops : PullableDiffOps Diff Key) (s : PullSourceState Diff Key)
    (updater : Key → Key) : PullSourceState Diff Key :=
  { s with
    diffs_per_key :=
      collectLastWins (s.diffs_per_key.map (fun p => (updater p.1, p.2)))
    diffs := fun j =>
      (s.diffs j).map (fun d =>
        match ops.get_snapshot_key d with
        | some existing_key => ops.set_snapshot_key d (updater existing_key)
        | none => d) }

/-- `StructrualSignalPullSource::get_next_signal_id`. -/
def get_next_signal_id {Diff Key : Type} (s : PullSourceState Diff Key) :
    Nat × PullSourceState Diff Key :=
  (s.next_signal_id, { s with next_signal_id := s.next_signal_id + 1 })

/-- Folding `add_diff` over a list of diffs (a mutation sequence). -/
def addAll {Diff Key : Type} [DecidableEq Key] (ops : PullableDiffOps Diff Key) :
    PullSourceState Diff Key → List Diff → Option (PullSourceState Diff Key)
  | s, [] => some s
  | s, d :: ds =>
    match add_diff ops s d with
    | none => none
    | some s1 => addAll ops s1 ds

/-- `MapDiff` from hash_map/event.rs. -/
inductive MapDiff (K : Type) where
  | replace
  | insert (key : K)
  | update (key : K)
  | remove (key : K)
  | clear
deriving DecidableEq, Repr

namespace MapDiff

/-- `MapDiff::get_key`. -/
def get_key {K : Type} : MapDiff K → Option K
  | MapDiff.insert k => some k
  | MapDiff.update k => some k
  | MapDiff.remove k => some k
  | _ => none

/-- `MapDiff::get_snapshot_key`: map events do not need snapshot keys, it
delegates to `get_key`. -/
def get_snapshot_key {K : Type} (d : MapDiff K) : Option K :=
  d.get_key

/-- `MapDiff::set_key`. The Rust code panics on the non-keyed variants; the
only call site guards on `get_key` being present, so the non-keyed branch
(returning the diff unchanged here) is unreachable. -/
def set_key {K : Type} : MapDiff K → K → MapDiff K
  | MapDiff.insert _, k => MapDiff.insert k
  | MapDiff.update _, k => MapDiff.update k
  | MapDiff.remove _, k => MapDiff.remove k
  | d, _ => d

/-- `MapDiff::set_snapshot_key` is a no-op in the Rust source. -/
def set_snapshot_key {K : Type} (d : MapDiff K) (_ : K) : MapDiff K :=
  d

/-- `MapDiff::merge_with_previous`. `none` models the
`panic!("Found two inserts on the same key...")` path. -/
def merge_with_previous {K : Type} (self previous : MapDiff K) :
    Option (DiffMergeResult (MapDiff K) K) :=
  match previous with
  | MapDiff.insert _ =>
    match self with
    | MapDiff.remove _ => some DiffMergeResult.discard_both
    | MapDiff.update _ => some DiffMergeResult.ignore
    | MapDiff.insert _ => none
    | _ => some DiffMergeResult.replace
  | _ => some DiffMergeResult.replace

end MapDiff

/-- The `PullableDiff` impl for `MapDiff`. -/
def mapOps (K : Type) : PullableDiffOps (MapDiff K) K :=
  { get_key := MapDiff.get_key
    get_snapshot_key := MapDiff.get_snapshot_key
    set_key := MapDiff.set_key
    set_snapshot_key := MapDiff.set_snapshot_key
    merge_with_previous := MapDiff.merge_with_previous
    full_replace := MapDiff.replace }

/-- `VectorDiff` from vector/event.rs. -/
inductive VectorDiff where
  | replace
  | insert (index snapshot_index : Nat)
  | update (index snapshot_index : Nat)
  | remove (index snapshot_index : Nat)
  | clear
deriving DecidableEq, Repr

namespace VectorDiff

/-- `VectorDiff::get_key` (the externally visible index). -/
def get_key : VectorDiff → Option Nat
  | VectorDiff.insert i _ => some i
  | VectorDiff.update i _ => some i
  | VectorDiff.remove i _ => some i
  | _ => none

/-- `VectorDiff::get_snapshot_key` (the snapshot index). -/
def get_snapshot_key : VectorDiff → Option Nat
  | VectorDiff.insert _ si => some si
  | VectorDiff.update _ si => some si
  | VectorDiff.remove _ si => some si
  | _ => none

/-- `VectorDiff::set_key`. Panics on non-keyed variants in Rust; the only
call site guards on `get_key` being present. -/
def set_key : VectorDiff → Nat → VectorDiff
  | VectorDiff.insert _ si, i => VectorDiff.insert i si
  | VectorDiff.update _ si, i => VectorDiff.update i si
  | VectorDiff.remove _ si, i => VectorDiff.remove i si
  | d, _ => d

/-- `VectorDiff::set_snapshot_key`. Panics on non-keyed variants in Rust;
the only call site guards on `get_snapshot_key` being present. -/
def set_snapshot_key : VectorDiff → Nat → VectorDiff
  | VectorDiff.insert i _, si => VectorDiff.insert i si
  | VectorDiff.update i _, si => VectorDiff.update i si
  | VectorDiff.remove i _, si => VectorDiff.remove i si
  | d, _ => d

/-- `VectorDiff::merge_with_previous`. `none` models the
`panic!("Found two inserts on the same index...")` path. The reindexers use
truncated `Nat` subtraction for `*i - 1`. -/
def merge_with_previous (self previous : VectorDiff) :
    Option (DiffMergeResult VectorDiff Nat) :=
  match previous with
  | VectorDiff.insert _ psi =>
    match self with
    | VectorDiff.remove _ _ =>
      some (DiffMergeResult.discard_both_and_reindex
        (fun i si => if psi < si then i - 1 else i))
    | VectorDiff.update _ _ => some DiffMergeResult.ignore
    | VectorDiff.insert _ _ => none
    | _ => some DiffMergeResult.replace
  | VectorDiff.remove _ _ =>
    match self with
    | VectorDiff.insert i si =>
      some (DiffMergeResult.merge_and_reindex (VectorDiff.update i si)
        (fun j sj => if si < sj then j + 1 else j))
    | _ => some DiffMergeResult.keep_both
  | _ => some DiffMergeResult.replace

end VectorDiff

/-- The `PullableDiff` impl for `VectorDiff`. -/
def vecOps : PullableDiffOps VectorDiff Nat :=
  { get_key := VectorDiff.get_key
    get_snapshot_key := VectorDiff.get_snapshot_key
    set_key := VectorDiff.set_key
    set_snapshot_key := VectorDiff.set_snapshot_key
    merge_with_previous := VectorDiff.merge_with_previous
    full_replace := VectorDiff.replace }

/-! Association-list lemmas. -/

theorem sLookup_sErase_ne {K V : Type} [DecidableEq K] (l : List (K × V)) (k k1 : K)
    (h : k1 ≠ k) : sLookup (sErase l k) k1 = sLookup l k1 := by
  induction l with
  | nil => rfl
  | cons p r ih =>
    by_cases hp : p.1 = k
    · simp [sErase, sLookup, hp, h] at ih ⊢
      rw [if_neg (by simpa [hp] using fun hh => h hh.symm)] at *
      simpa [sErase] using ih
    · simp only [sErase, List.filter] at ih ⊢
      simp only [hp, decide_not, decide_eq_false_iff_not] at *
      by_cases hq : p.1 = k1
      · simp [sLookup, hq, hp, decide_eq_true_eq]
      · simp [sLookup, hq, hp, decide_eq_true_eq]
        exact ih

theorem sLookup_sErase_self {K V : Type} [DecidableEq K] (l : List (K × V)) (k : K) :
    sLookup (sErase l k) k = none := by
  induction l with
  | nil => rfl
  | cons p r ih =>
    by_cases hp : p.1 = k
    · simpa [sErase, List.filter, hp] using ih
    · simpa [sErase, List.filter, hp, sLookup] using ih

theorem sLookup_sInsert_self {K V : Type} [DecidableEq K] (l : List (K × V)) (k : K) (v : V) :
    sLookup (sInsert l k v) k = some v := by
  simp [sInsert, sLookup]

theorem sLookup_sInsert_ne {K V : Type} [DecidableEq K] (l : List (K × V)) (k k1 : K) (v : V)
    (h : k1 ≠ k) : sLookup (sInsert l k v) k1 = sLookup l k1 := by
  simp only [sInsert, sLookup]
  rw [if_neg (fun hh => h hh.symm)]
  exact sLookup_sErase_ne l k k1 h

theorem sLookup_mem {K V : Type} [DecidableEq K] {l : List (K × V)} {k : K} {v : V}
    (h : sLookup l k = some v) : (k, v) ∈ l := by
  induction l with
  | nil => simp [sLookup] at h
  | cons p r ih =>
    simp only [sLookup] at h
    by_cases hp : p.1 = k
    · rw [if_pos hp] at h
      obtain ⟨a, b⟩ := p
      simp only [Option.some.injEq] at h
      simp only at hp
      subst hp
      subst h
      exact List.mem_cons_self _ _
    · rw [if_neg hp] at h
      exact List.mem_cons_of_mem _ (ih h)

theorem mem_sErase {K V : Type} [DecidableEq K] {l : List (K × V)} {k : K} {p : K × V}
    (h : p ∈ sErase l k) : p ∈ l ∧ p.1 ≠ k := by
  have := List.mem_filter.1 h
  simpa using this

/-! Claim theorems: pull source core. -/

/-- Claim C1: the first call ever to `pull_signal` with a given consumer id
returns a batch consisting of exactly one full-replace sentinel diff,
regardless of the diff-log contents. A first-ever call is one whose id has
no entry in `signal_last_diff_numbers`: entries there are created only by
`pull_signal` itself and are never removed by any operation. -/
theorem pull_signal_first_pull_full_replace {Diff Key : Type} [DecidableEq Key]
    (ops : PullableDiffOps Diff Key) (s : PullSourceState Diff Key) (id : Nat)
    (h : sLookup s.signal_last_diff_numbers id = none) :
    (pull_signal ops s id).2 = [ops.full_replace] := by
  simp only [pull_signal, h]

/-- Witness for C1: pulling id 1 on a fresh pull source yields exactly one
full-replace sentinel. -/
theorem pull_signal_first_pull_full_replace_witness :
    (pull_signal (mapOps Nat) (PullSourceState.new (MapDiff Nat) Nat) 1).2 =
      [MapDiff.replace] :=
  pull_signal_first_pull_full_replace (mapOps Nat)
    (PullSourceState.new (MapDiff Nat) Nat) 1 rfl

/-- Claim C3: with zero consumers ever subscribed (so
`signal_last_diff_numbers` is empty and stays empty), every `add_diff` call
in any mutation sequence is a no-op: folding any list of diffs over the
fresh pull source leaves it exactly in its initial state, so the diff log
stays empty and `next_diff_index` stays 1 after each mutation. -/
theorem add_diff_unobserved_noop {Diff Key : Type} [DecidableEq Key]
    (ops : PullableDiffOps Diff Key) (ds : List Diff) :
    addAll ops (PullSourceState.new Diff Key) ds =
      some (PullSourceState.new Diff Key) := by
  induction ds with
  | nil => rfl
  | cons d ds ih =>
    have h1 : add_diff ops (PullSourceState.new Diff Key) d =
        some (PullSourceState.new Diff Key) := by
      simp [add_diff, has_listening_signal, PullSourceState.new]
    simp only [addAll, h1]
    exact ih

/-- Counterexample to claim C5: issuing a consumer id via
`get_next_signal_id` does not make `has_listening_signal` true; the claim
says it returns true once at least one id has ever been issued, but after
issuing id 1 on a fresh pull source it still returns false (the code tests
`signal_last_diff_numbers`, which only `pull_signal` populates). -/
theorem has_listening_after_id_issue_false :
    has_listening_signal
      (get_next_signal_id (PullSourceState.new (MapDiff Nat) Nat)).2 = false :=
  rfl

/-- Claim C5 as amended: `has_listening_signal` turns true exactly when a
consumer records its first pull, not when an id is issued: issuing an id via
`get_next_signal_id` leaves it unchanged, while every `pull_signal` call
leaves it true (independently of whether the consumer is still active —
consumers never unregister, as no operation removes cursor entries). -/
theorem has_listening_iff_pulled :
    (∀ (Diff Key : Type) (s : PullSourceState Diff Key),
        has_listening_signal (get_next_signal_id s).2 = has_listening_signal s)
    ∧ (∀ (Diff Key : Type) [DecidableEq Key] (ops : PullableDiffOps Diff Key)
        (s : PullSourceState Diff Key) (id : Nat),
        has_listening_signal (pull_signal ops s id).1 = true) := by
  constructor
  · intro Diff Key s
    rfl
  · intro Diff Key dk ops s id
    simp only [pull_signal]
    cases hm : sLookup s.signal_last_diff_numbers id with
    | none => simp [has_listening_signal, sInsert]
    | some last =>
      by_cases he : last = s.next_diff_index - 1
      · simp [he, has_listening_signal, sInsert]
      · simp only [if_neg he]
        by_cases hg :
            ((List.range' (last + 1) (s.next_diff_index - (last + 1))).filterMap
              s.diffs).any (fun d => (ops.get_key d).isNone) = true
        · simp [hg, has_listening_signal, sInsert]
        · simp [hg, has_listening_signal, sInsert]

/-- Claim C2: adding a global (key-less) diff while at least one consumer is
tracked clears the diff log and the compaction index and inserts only that
diff; afterwards, a `pull_signal` call by any consumer whose recorded cursor
is behind the new head returns exactly one full-replace sentinel. -/
theorem add_global_diff_purges_and_resyncs {Diff Key : Type} [DecidableEq Key]
    (ops : PullableDiffOps Diff Key) (s : PullSourceState Diff Key) (d : Diff)
    (h1 : has_listening_signal s = true) (h2 : ops.get_key d = none) :
    ∃ s1, add_diff ops s d = some s1
      ∧ s1.diffs s.next_diff_index = some d
      ∧ (∀ j, j ≠ s.next_diff_index → s1.diffs j = none)
      ∧ s1.diffs_per_key = []
      ∧ s1.next_diff_index = s.next_diff_index + 1
      ∧ s1.signal_last_diff_numbers = s.signal_last_diff_numbers
      ∧ (∀ id last, sLookup s1.signal_last_diff_numbers id = some last →
          last < s.next_diff_index →
          (pull_signal ops s1 id).2 = [ops.full_replace]) := by
  refine ⟨{ s with
      diffs := fun j => if j = s.next_diff_index then some d else none
      diffs_per_key := []
      next_diff_index := s.next_diff_index + 1 }, ?_, ?_, ?_, rfl, rfl, rfl, ?_⟩
  · simp [add_diff, h1, h2]
  · simp
  · intro j hj
    simp [hj]
  · intro id last hlook hlt
    have hne : last ≠ s.next_diff_index + 1 - 1 := by omega
    simp only [pull_signal, hlook, if_neg hne]
    have hmem : s.next_diff_index ∈ List.range' (last + 1) (s.next_diff_index + 1 - (last + 1)) := by
      rw [List.mem_range'_1]
      omega
    have hdm : (fun j => if j = s.next_diff_index then some d else none) s.next_diff_index
        = some d := by simp
    have hdin : d ∈ (List.range' (last + 1) (s.next_diff_index + 1 - (last + 1))).filterMap
        (fun j => if j = s.next_diff_index then some d else none) :=
      List.mem_filterMap.2 ⟨s.next_diff_index, hmem, hdm⟩
    have hany : ((List.range' (last + 1) (s.next_diff_index + 1 - (last + 1))).filterMap
        (fun j => if j = s.next_diff_index then some d else none)).any
          (fun x => (ops.get_key x).isNone) = true := by
      rw [List.any_eq_true]
      exact ⟨d, hdin, by simp [h2]⟩
    simp only [hany]
    simp

/-- Witness for C2: a pull source with one consumer (id 1, cursor 0) and one
pending keyed diff receives the global `clear`; the log collapses to just
the clear at index 2, the compaction index empties, and the consumer's next
pull is exactly one full-replace sentinel. -/
theorem add_global_diff_purges_and_resyncs_witness :
    ∃ s1, add_diff (mapOps Nat)
        ((add_diff (mapOps Nat)
          (pull_signal (mapOps Nat) (PullSourceState.new (MapDiff Nat) Nat) 1).1
          (MapDiff.insert 5)).getD (PullSourceState.new (MapDiff Nat) Nat))
        MapDiff.clear = some s1
      ∧ s1.diffs 2 = some MapDiff.clear
      ∧ (∀ j, j ≠ 2 → s1.diffs j = none)
      ∧ s1.diffs_per_key = []
      ∧ s1.next_diff_index = 3
      ∧ s1.signal_last_diff_numbers =
          ((add_diff (mapOps Nat)
            (pull_signal (mapOps Nat) (PullSourceState.new (MapDiff Nat) Nat) 1).1
            (MapDiff.insert 5)).getD
              (PullSourceState.new (MapDiff Nat) Nat)).signal_last_diff_numbers
      ∧ (∀ id last,
          sLookup s1.signal_last_diff_numbers id = some last → last < 2 →
          (pull_signal (mapOps Nat) s1 id).2 = [MapDiff.replace]) :=
  add_global_diff_purges_and_resyncs (mapOps Nat) _ MapDiff.clear rfl rfl

/-- Claim C6: when a new keyed diff collides with the open previous diff for
the same key and `merge_with_previous` returns the `Ignore` outcome, the
whole add is undone: `add_diff` succeeds and the resulting state has the
same diff log (the previous diff reinstated at its old sequence number),
the same compaction index (as a map), the same cursors and the same
sequence counters as before the call. -/
theorem ignore_outcome_restores_state {Diff Key : Type} [DecidableEq Key]
    (ops : PullableDiffOps Diff Key) (s : PullSourceState Diff Key)
    (d prev : Diff) (k : Key) (n : Nat)
    (hl : has_listening_signal s = true)
    (hk : ops.get_key d = some k)
    (hdpk : sLookup s.diffs_per_key k = some n)
    (hdiff : s.diffs n = some prev)
    (hm : ops.merge_with_previous d prev = some DiffMergeResult.ignore) :
    ∃ s1, add_diff ops s d = some s1
      ∧ s1.diffs = s.diffs
      ∧ (∀ k1, sLookup s1.diffs_per_key k1 = sLookup s.diffs_per_key k1)
      ∧ s1.signal_last_diff_numbers = s.signal_last_diff_numbers
      ∧ s1.next_diff_index = s.next_diff_index
      ∧ s1.next_signal_id = s.next_signal_id := by
  refine ⟨{ s with
      diffs := fun j => if j = n then some prev
        else (fun j1 => if j1 = n then none else s.diffs j1) j
      diffs_per_key := sInsert (sErase s.diffs_per_key k) k n }, ?_, ?_, ?_, rfl, rfl, rfl⟩
  · simp [add_diff, hl, hk, hdpk, hdiff, hm, DiffMergeResult.ignore]
  · funext j
    by_cases hj : j = n
    · simp [hj, hdiff]
    · simp [hj]
  · intro k1
    by_cases hk1 : k1 = k
    · rw [hk1, sLookup_sInsert_self, hdpk]
    · rw [sLookup_sInsert_ne _ _ _ _ hk1, sLookup_sErase_ne _ _ _ hk1]

/-- Witness for C6: with one consumer and an open `Insert 0` diff, adding
`Update 0` hits the map merge policy's `Ignore` outcome and the pull-source
state is fully restored. -/
theorem ignore_outcome_restores_state_witness :
    ∃ s1, add_diff (mapOps Nat)
        ((add_diff (mapOps Nat)
          (pull_signal (mapOps Nat) (PullSourceState.new (MapDiff Nat) Nat) 1).1
          (MapDiff.insert 0)).getD (PullSourceState.new (MapDiff Nat) Nat))
        (MapDiff.update 0) = some s1
      ∧ s1.diffs =
          ((add_diff (mapOps Nat)
            (pull_signal (mapOps Nat) (PullSourceState.new (MapDiff Nat) Nat) 1).1
            (MapDiff.insert 0)).getD (PullSourceState.new (MapDiff Nat) Nat)).diffs
      ∧ (∀ k1, sLookup s1.diffs_per_key k1 = sLookup
          ((add_diff (mapOps Nat)
            (pull_signal (mapOps Nat) (PullSourceState.new (MapDiff Nat) Nat) 1).1
            (MapDiff.insert 0)).getD
              (PullSourceState.new (MapDiff Nat) Nat)).diffs_per_key k1)
      ∧ s1.signal_last_diff_numbers = [(1, 0)]
      ∧ s1.next_diff_index = 2
      ∧ s1.next_signal_id = 1 :=
  ignore_outcome_restores_state (mapOps Nat) _ (MapDiff.update 0) (MapDiff.insert 0)
    0 1 rfl rfl rfl rfl rfl

theorem sLookup_none_of_not_mem_keys {K V : Type} [DecidableEq K]
    {l : List (K × V)} {k : K} (h : k ∉ l.map Prod.fst) : sLookup l k = none := by
  induction l with
  | nil => rfl
  | cons p r ih =>
    simp only [List.map, List.mem_cons] at h
    push_neg at h
    simp only [sLookup]
    rw [if_neg (fun hh => h.1 hh.symm)]
    exact ih h.2

theorem sErase_eq_of_lookup_none {K V : Type} [DecidableEq K]
    {l : List (K × V)} {k : K} (h : sLookup l k = none) : sErase l k = l := by
  induction l with
  | nil => rfl
  | cons p r ih =>
    simp only [sLookup] at h
    by_cases hp : p.1 = k
    · rw [if_pos hp] at h
      cases h
    · rw [if_neg hp] at h
      have hstep : sErase (p :: r) k = p :: sErase r k := by
        simp [sErase, List.filter_cons, hp]
      rw [hstep, ih h]

/-- Rewriting every key of a nodup-keyed association list through an
injective function and collecting the result back into a hash map preserves
every lookup, up to the key rewrite. -/
theorem sLookup_collectLastWins_map {K V : Type} [DecidableEq K] (f : K → K)
    (hf : Function.Injective f) :
    ∀ (l : List (K × V)), (l.map Prod.fst).Nodup →
      ∀ k, sLookup (collectLastWins (l.map (fun p => (f p.1, p.2)))) (f k) =
        sLookup l k := by
  intro l
  induction l with
  | nil => intro _ k; rfl
  | cons p r ih =>
    intro hnd k
    have hp1 : p.1 ∉ r.map Prod.fst := by
      simp only [List.map, List.nodup_cons] at hnd
      exact hnd.1
    have hr : (r.map Prod.fst).Nodup := by
      simp only [List.map, List.nodup_cons] at hnd
      exact hnd.2
    have hlr : sLookup r p.1 = none := sLookup_none_of_not_mem_keys hp1
    have hcoll : sLookup (collectLastWins (r.map (fun q => (f q.1, q.2)))) (f p.1) =
        sLookup r p.1 := ih hr p.1
    simp only [List.map, collectLastWins]
    rw [hcoll, hlr]
    simp only [Option.isSome_none, Bool.false_eq_true, if_false]
    by_cases hk : k = p.1
    · subst hk
      simp [sLookup]
    · have hfk : f p.1 ≠ f k := fun h => hk (hf h).symm
      simp only [sLookup, if_neg hfk]
      rw [if_neg (fun hh : p.1 = k => hk hh.symm)]
      exact ih hr k

/-- A pull source for map diffs over `Nat` keys with one consumer: id 1 has
pulled once (its bootstrap full-replace). -/
def mapPulled : PullSourceState (MapDiff Nat) Nat :=
  (pull_signal (mapOps Nat) (PullSourceState.new (MapDiff Nat) Nat) 1).1

/-- A pull source for vector diffs with one consumer: id 1 has pulled once. -/
def vecPulled : PullSourceState VectorDiff Nat :=
  (pull_signal vecOps (PullSourceState.new VectorDiff Nat) 1).1

/-- `mapPulled` after adding an open `Insert 5` diff. -/
def mapWithInsert5 : PullSourceState (MapDiff Nat) Nat :=
  (add_diff (mapOps Nat) mapPulled (MapDiff.insert 5)).getD mapPulled

/-- `vecPulled` after adding an open `Insert` at index 3, snapshot index 3. -/
def vecWithInsert3 : PullSourceState VectorDiff Nat :=
  (add_diff vecOps vecPulled (VectorDiff.insert 3 3)).getD vecPulled

/-- Counterexample to claim C4: `update_keys` does not rewrite an open
diff's key through the mapper, for either diff type. On the map side the
open `Insert 5` diff still carries key 5 (not `f 5 = 6`) because
`MapDiff::set_snapshot_key` is a no-op; on the vector side the open
`Insert` at index 3 (snapshot index 3) has only its snapshot index
rewritten to 13, its externally-visible key (index) stays 3 instead of
becoming `f 3 = 13`. -/
theorem update_keys_rewrites_diff_key_false :
    (update_keys (mapOps Nat) mapWithInsert5 (fun k => k + 1)).diffs 1 =
        some (MapDiff.insert 5)
    ∧ (update_keys (mapOps Nat) mapWithInsert5 (fun k => k + 1)).diffs 1 ≠
        some (MapDiff.insert 6)
    ∧ (update_keys vecOps vecWithInsert3 (fun k => k + 10)).diffs 1 =
        some (VectorDiff.insert 3 13)
    ∧ (update_keys vecOps vecWithInsert3 (fun k => k + 10)).diffs 1 ≠
        some (VectorDiff.insert 13 13) := by
  refine ⟨rfl, ?_, rfl, ?_⟩ <;> decide

/-- Claim C4 as amended: `update_keys(f)` rewrites every compaction-index
entry's key through `f` (stated for injective `f` on a nodup-keyed index,
since hash-map collision order is unspecified), and applies
`set_snapshot_key` with the rewritten snapshot key to every logged diff that
has one. For map diffs `set_snapshot_key` is a no-op, so the diff log is
unchanged; for vector diffs the snapshot index is rewritten through `f`
while the externally-visible key (the index) is unchanged. -/
theorem update_keys_snapshot_key_and_index :
    (∀ (K : Type) [DecidableEq K] (s : PullSourceState (MapDiff K) K) (f : K → K),
        (update_keys (mapOps K) s f).diffs = s.diffs)
    ∧ (∀ (s : PullSourceState VectorDiff Nat) (f : Nat → Nat) (j : Nat) (d : VectorDiff),
        s.diffs j = some d →
        ∃ d1, (update_keys vecOps s f).diffs j = some d1
          ∧ VectorDiff.get_key d1 = VectorDiff.get_key d
          ∧ VectorDiff.get_snapshot_key d1 =
              (VectorDiff.get_snapshot_key d).map f)
    ∧ (∀ (Diff K : Type) [DecidableEq K] (ops : PullableDiffOps Diff K)
        (s : PullSourceState Diff K) (f : K → K) (k : K),
        Function.Injective f → (s.diffs_per_key.map Prod.fst).Nodup →
        sLookup (update_keys ops s f).diffs_per_key (f k) =
          sLookup s.diffs_per_key k) := by
  refine ⟨?_, ?_, ?_⟩
  · intro K dk s f
    funext j
    simp only [update_keys]
    cases hd : s.diffs j with
    | none => rfl
    | some d =>
      cases d <;>
        simp [mapOps, MapDiff.get_snapshot_key, MapDiff.get_key, MapDiff.set_snapshot_key]
  · intro s f j d hd
    simp only [update_keys, hd, Option.map_some']
    cases d <;>
      exact ⟨_, rfl, by simp [vecOps, VectorDiff.get_key, VectorDiff.get_snapshot_key,
        VectorDiff.set_snapshot_key]⟩
  · intro Diff K dk ops s f k hf hnd
    simpa only [update_keys] using
      sLookup_collectLastWins_map f hf s.diffs_per_key hnd k

/-- Witness for the amended C4 theorem, at the concrete states used by the
counterexample: the map log is unchanged, the vector diff keeps its index
and maps its snapshot index, and the compaction-index entry for key 3 is
found under key 13 after the rewrite. -/
theorem update_keys_snapshot_key_and_index_witness :
    (update_keys (mapOps Nat) mapWithInsert5 (fun k => k + 1)).diffs =
        mapWithInsert5.diffs
    ∧ (∃ d1, (update_keys vecOps vecWithInsert3 (fun k => k + 10)).diffs 1 = some d1
        ∧ VectorDiff.get_key d1 = VectorDiff.get_key (VectorDiff.insert 3 3)
        ∧ VectorDiff.get_snapshot_key d1 =
            (VectorDiff.get_snapshot_key (VectorDiff.insert 3 3)).map (fun k => k + 10))
    ∧ sLookup (update_keys vecOps vecWithInsert3 (fun k => k + 10)).diffs_per_key 13 =
        sLookup vecWithInsert3.diffs_per_key 3 :=
  ⟨update_keys_snapshot_key_and_index.1 Nat mapWithInsert5 (fun k => k + 1),
   update_keys_snapshot_key_and_index.2.1 vecWithInsert3 (fun k => k + 10) 1
     (VectorDiff.insert 3 3) rfl,
   update_keys_snapshot_key_and_index.2.2 VectorDiff Nat vecOps vecWithInsert3
     (fun k => k + 10) 3 (fun a b h => by simpa using h) (by decide)⟩

/-- `mapPulled` after adding an `Update 0` diff (open diff for key 0). -/
def c7AfterUpdate : PullSourceState (MapDiff Nat) Nat :=
  (add_diff (mapOps Nat) mapPulled (MapDiff.update 0)).getD mapPulled

/-- `c7AfterUpdate` after consumer 1 pulls, revealing the `Update 0` diff
(the pull clears the compaction index but leaves the diff in the log). -/
def c7Revealed : PullSourceState (MapDiff Nat) Nat :=
  (pull_signal (mapOps Nat) c7AfterUpdate 1).1

/-- `c7Revealed` after adding `Insert 0`. -/
def c7AfterInsert : PullSourceState (MapDiff Nat) Nat :=
  (add_diff (mapOps Nat) c7Revealed (MapDiff.insert 0)).getD c7Revealed

/-- `c7AfterInsert` after adding `Remove 0`. -/
def c7AfterRemove : PullSourceState (MapDiff Nat) Nat :=
  (add_diff (mapOps Nat) c7AfterInsert (MapDiff.remove 0)).getD c7AfterInsert

/-- Counterexample to claim C7: with one tracked consumer, an `Insert` diff
for key 0 is added and then a `Remove` diff for key 0 is added, with no pull
in between (so no consumer pull ever reveals the `Insert`); the pair does
cancel, but the diff log still contains a diff whose key is 0 — the earlier
`Update 0` that a pull had already revealed (revealed diffs stay in the log
and are no longer compactable), so the claimed "zero diffs whose key is k"
is false. -/
theorem insert_then_remove_zero_diffs_false :
    (add_diff (mapOps Nat) c7Revealed (MapDiff.insert 0)).isSome = true
    ∧ (add_diff (mapOps Nat) c7AfterInsert (MapDiff.remove 0)).isSome = true
    ∧ c7AfterRemove.diffs 1 = some (MapDiff.update 0)
    ∧ ¬(∀ n d, c7AfterRemove.diffs n = some d → MapDiff.get_key d ≠ some 0) :=
  ⟨rfl, rfl, rfl, fun h => h 1 (MapDiff.update 0) rfl rfl⟩

/-- Claim C7 as amended: for both map and vector diff types, if key `k` has
no open (compaction-index) entry and index `next_diff_index` is not yet
occupied, adding an `Insert` diff for `k` and then immediately a `Remove`
diff for `k` (before any pull) cancels completely: the diff log and the
compaction index return exactly to their pre-`Insert` state; in particular
the log contains zero diffs for `k` afterwards whenever it contained none
before. -/
theorem insert_then_remove_cancels :
    (∀ (K : Type) [DecidableEq K] (s : PullSourceState (MapDiff K) K) (k : K),
        has_listening_signal s = true →
        sLookup s.diffs_per_key k = none →
        s.diffs s.next_diff_index = none →
        ∃ s1 s2, add_diff (mapOps K) s (MapDiff.insert k) = some s1
          ∧ add_diff (mapOps K) s1 (MapDiff.remove k) = some s2
          ∧ s2.diffs = s.diffs
          ∧ s2.diffs_per_key = s.diffs_per_key
          ∧ ((∀ n d, s.diffs n = some d → MapDiff.get_key d ≠ some k) →
              ∀ n d, s2.diffs n = some d → MapDiff.get_key d ≠ some k))
    ∧ (∀ (s : PullSourceState VectorDiff Nat) (k sk sk2 : Nat),
        has_listening_signal s = true →
        sLookup s.diffs_per_key k = none →
        s.diffs s.next_diff_index = none →
        ∃ s1 s2, add_diff vecOps s (VectorDiff.insert k sk) = some s1
          ∧ add_diff vecOps s1 (VectorDiff.remove k sk2) = some s2
          ∧ s2.diffs = s.diffs
          ∧ s2.diffs_per_key = s.diffs_per_key
          ∧ ((∀ n d, s.diffs n = some d → VectorDiff.get_key d ≠ some k) →
              ∀ n d, s2.diffs n = some d → VectorDiff.get_key d ≠ some k)) := by
  constructor
  · intro K dk s k hl hnone hnext
    have e1 : sErase s.diffs_per_key k = s.diffs_per_key :=
      sErase_eq_of_lookup_none hnone
    refine ⟨{ s with
        diffs := fun j => if j = s.next_diff_index
          then some (MapDiff.insert k) else s.diffs j
        diffs_per_key := sInsert s.diffs_per_key k s.next_diff_index
        next_diff_index := s.next_diff_index + 1 },
      { s with
        diffs := fun j => if j = s.next_diff_index then none
          else if j = s.next_diff_index then some (MapDiff.insert k) else s.diffs j
        diffs_per_key := s.diffs_per_key
        next_diff_index := s.next_diff_index + 1 }, ?_, ?_, ?_, rfl, ?_⟩
    · simp [add_diff, hl, mapOps, MapDiff.get_key, hnone]
    · have hlook : sLookup (sInsert s.diffs_per_key k s.next_diff_index) k =
          some s.next_diff_index := sLookup_sInsert_self _ _ _
      have herase : sErase (sInsert s.diffs_per_key k s.next_diff_index) k =
          s.diffs_per_key := by
        simp only [sInsert]
        have hdrop : sErase ((k, s.next_diff_index) :: sErase s.diffs_per_key k) k =
            sErase (sErase s.diffs_per_key k) k := by
          simp [sErase, List.filter_cons]
        rw [hdrop, e1, e1]
      have hle : s.signal_last_diff_numbers.isEmpty = false := by
        simpa [has_listening_signal] using hl
      simp [add_diff, has_listening_signal, hle, mapOps, MapDiff.get_key, hlook,
        MapDiff.merge_with_previous, DiffMergeResult.discard_both, herase]
    · funext j
      by_cases hj : j = s.next_diff_index
      · simp [hj, hnext]
      · simp [hj]
    · intro hzero n d hd
      by_cases hn : n = s.next_diff_index
      · rw [hn] at hd
        simp at hd
      · simp only [if_neg hn] at hd
        exact hzero n d hd
  · intro s k sk sk2 hl hnone hnext
    have e1 : sErase s.diffs_per_key k = s.diffs_per_key :=
      sErase_eq_of_lookup_none hnone
    refine ⟨{ s with
        diffs := fun j => if j = s.next_diff_index
          then some (VectorDiff.insert k sk) else s.diffs j
        diffs_per_key := sInsert s.diffs_per_key k s.next_diff_index
        next_diff_index := s.next_diff_index + 1 },
      { s with
        diffs := fun j => if j = s.next_diff_index then none
          else if j = s.next_diff_index then some (VectorDiff.insert k sk) else s.diffs j
        diffs_per_key := s.diffs_per_key
        next_diff_index := s.next_diff_index + 1 }, ?_, ?_, ?_, rfl, ?_⟩
    · simp [add_diff, hl, vecOps, VectorDiff.get_key, hnone]
    · have hlook : sLookup (sInsert s.diffs_per_key k s.next_diff_index) k =
          some s.next_diff_index := sLookup_sInsert_self _ _ _
      have herase : sErase (sInsert s.diffs_per_key k s.next_diff_index) k =
          s.diffs_per_key := by
        simp only [sInsert]
        have hdrop : sErase ((k, s.next_diff_index) :: sErase s.diffs_per_key k) k =
            sErase (sErase s.diffs_per_key k) k := by
          simp [sErase, List.filter_cons]
        rw [hdrop, e1, e1]
      have hone : s.next_diff_index + 1 - s.next_diff_index = 1 := by omega
      have hle : s.signal_last_diff_numbers.isEmpty = false := by
        simpa [has_listening_signal] using hl
      simp [add_diff, has_listening_signal, hle, vecOps, VectorDiff.get_key, hlook,
        VectorDiff.merge_with_previous, DiffMergeResult.discard_both_and_reindex,
        hone, List.range'_one, updateIntermediaryDiffs, herase]
    · funext j
      by_cases hj : j = s.next_diff_index
      · simp [hj, hnext]
      · simp [hj]
    · intro hzero n d hd
      by_cases hn : n = s.next_diff_index
      · rw [hn] at hd
        simp at hd
      · simp only [if_neg hn] at hd
        exact hzero n d hd

/-- Witness for the amended C7 theorem: on a pull source with one consumer
and an empty log, `Insert 3` (snapshot 3 on the vector side) followed
immediately by `Remove 3` restores the log and compaction index, for both
diff types. -/
theorem insert_then_remove_cancels_witness :
    (∃ s1 s2, add_diff (mapOps Nat) mapPulled (MapDiff.insert 3) = some s1
      ∧ add_diff (mapOps Nat) s1 (MapDiff.remove 3) = some s2
      ∧ s2.diffs = mapPulled.diffs
      ∧ s2.diffs_per_key = mapPulled.diffs_per_key
      ∧ ((∀ n d, mapPulled.diffs n = some d → MapDiff.get_key d ≠ some 3) →
          ∀ n d, s2.diffs n = some d → MapDiff.get_key d ≠ some 3))
    ∧ (∃ s1 s2, add_diff vecOps vecPulled (VectorDiff.insert 3 3) = some s1
      ∧ add_diff vecOps s1 (VectorDiff.remove 3 3) = some s2
      ∧ s2.diffs = vecPulled.diffs
      ∧ s2.diffs_per_key = vecPulled.diffs_per_key
      ∧ ((∀ n d, vecPulled.diffs n = some d → VectorDiff.get_key d ≠ some 3) →
          ∀ n d, s2.diffs n = some d → VectorDiff.get_key d ≠ some 3)) :=
  ⟨insert_then_remove_cancels.1 Nat mapPulled 3 rfl rfl rfl,
   insert_then_remove_cancels.2 vecPulled 3 3 3 rfl rfl rfl⟩

theorem mem_sInsert {K V : Type} [DecidableEq K] {l : List (K × V)} {k : K} {v : V}
    {p : K × V} (h : p ∈ sInsert l k v) : p = (k, v) ∨ (p ∈ l ∧ p.1 ≠ k) := by
  simp only [sInsert, List.mem_cons] at h
  rcases h with h | h
  · exact Or.inl h
  · exact Or.inr (mem_sErase h)

theorem sErase_sublist {K V : Type} [DecidableEq K] (l : List (K × V)) (k : K) :
    (sErase l k).Sublist l :=
  List.filter_sublist l

theorem snd_nodup_sErase {K V : Type} [DecidableEq K] {l : List (K × V)} {k : K}
    (h : (l.map Prod.snd).Nodup) : ((sErase l k).map Prod.snd).Nodup :=
  List.Nodup.sublist (List.Sublist.map Prod.snd (sErase_sublist l k)) h

theorem values_unique {K V : Type} [DecidableEq K] {l : List (K × V)}
    (h : (l.map Prod.snd).Nodup) {p q : K × V} (hp : p ∈ l) (hq : q ∈ l)
    (he : p.2 = q.2) : p = q :=
  List.inj_on_of_nodup_map h hp hq he

theorem not_mem_snd_of_lt {K : Type} {l : List (K × Nat)} {n : Nat}
    (h : ∀ p ∈ l, p.2 < n) : n ∉ l.map Prod.snd := by
  intro hmem
  obtain ⟨p, hp, hpe⟩ := List.mem_map.1 hmem
  have := h p hp
  omega

theorem collect_mem {K V : Type} [DecidableEq K] {l : List (K × V)} {p : K × V}
    (h : p ∈ collectLastWins l) : p ∈ l := by
  induction l with
  | nil => simp [collectLastWins] at h
  | cons q rest ih =>
    simp only [collectLastWins] at h
    by_cases hc : (sLookup (collectLastWins rest) q.1).isSome = true
    · rw [if_pos hc] at h
      exact List.mem_cons_of_mem _ (ih h)
    · rw [if_neg hc] at h
      rcases List.mem_cons.1 h with h | h
      · exact h ▸ List.mem_cons_self _ _
      · exact List.mem_cons_of_mem _ (ih h)

theorem collect_snd_nodup {K V : Type} [DecidableEq K] {l : List (K × V)}
    (h : (l.map Prod.snd).Nodup) : ((collectLastWins l).map Prod.snd).Nodup := by
  induction l with
  | nil => simp [collectLastWins]
  | cons q rest ih =>
    simp only [List.map, List.nodup_cons] at h
    simp only [collectLastWins]
    by_cases hc : (sLookup (collectLastWins rest) q.1).isSome = true
    · rw [if_pos hc]
      exact ih h.2
    · rw [if_neg hc]
      simp only [List.map, List.nodup_cons]
      refine ⟨?_, ih h.2⟩
      intro hmem
      obtain ⟨p, hp, hpe⟩ := List.mem_map.1 hmem
      exact h.1 (List.mem_map.2 ⟨p, collect_mem hp, hpe⟩)

/-- If `updateIntermediaryDiffs` succeeds, it changes no slot of the diff
log from occupied to free or back: it only rewrites diffs in place. -/
theorem updateIntermediaryDiffs_isSome {Diff Key : Type}
    {ops : PullableDiffOps Diff Key} {dm dm2 : Nat → Option Diff}
    {idxs : List Nat} {f : Key → Key → Key}
    (h : updateIntermediaryDiffs ops dm idxs f = some dm2) :
    ∀ j, (dm2 j).isSome = (dm j).isSome := by
  induction idxs generalizing dm with
  | nil =>
    simp only [updateIntermediaryDiffs, Option.some.injEq] at h
    intro j
    rw [h]
  | cons i rest ih =>
    simp only [updateIntermediaryDiffs] at h
    cases hdi : dm i with
    | none =>
      simp only [hdi] at h
      exact ih h
    | some d =>
      simp only [hdi] at h
      cases hk : ops.get_key d with
      | none =>
        simp only [hk] at h
        exact ih h
      | some k =>
        simp only [hk] at h
        cases hsk : ops.get_snapshot_key d with
        | none =>
          simp only [hsk] at h
          exact Option.noConfusion h
        | some sk =>
          simp only [hsk] at h
          intro j
          have hstep := ih h j
          rw [hstep]
          by_cases hj : j = i
          · subst hj
            simp [hdi]
          · simp [hj]

/-- The inductive invariant of the pull source: every compaction-index
entry points at an occupied log slot below `next_diff_index`, compaction-
index values are pairwise distinct, and every cursor belongs to an id that
has been issued. -/
def SourceInv {Diff Key : Type} [DecidableEq Key]
    (s : PullSourceState Diff Key) : Prop :=
  (∀ p ∈ s.diffs_per_key, (s.diffs p.2).isSome = true ∧ p.2 < s.next_diff_index)
  ∧ (s.diffs_per_key.map Prod.snd).Nodup
  ∧ (∀ p ∈ s.signal_last_diff_numbers, p.1 < s.next_signal_id)

/-- States of the pull source reachable from `new` through the public
operations. `pull_signal` is only ever called by a
`PullSourceStructuralSignal`, whose id was issued by `get_next_signal_id`,
hence the `id < next_signal_id` side condition. -/
inductive Reachable {Diff Key : Type} [DecidableEq Key]
    (ops : PullableDiffOps Diff Key) : PullSourceState Diff Key → Prop where
  | new : Reachable ops (PullSourceState.new Diff Key)
  | add {s s1 : PullSourceState Diff Key} {d : Diff} : Reachable ops s →
      add_diff ops s d = some s1 → Reachable ops s1
  | pull {s : PullSourceState Diff Key} {id : Nat} : id < s.next_signal_id →
      Reachable ops s → Reachable ops (pull_signal ops s id).1
  | update {s : PullSourceState Diff Key} {f : Key → Key} : Reachable ops s →
      Reachable ops (update_keys ops s f)
  | issue {s : PullSourceState Diff Key} : Reachable ops s →
      Reachable ops (get_next_signal_id s).2

/-- In a state satisfying the compaction-index invariants, no entry of
`sErase diffs_per_key k` carries the sequence number that the entry for `k`
carried. -/
theorem sErase_snd_ne {Diff Key : Type} [DecidableEq Key]
    {s : PullSourceState Diff Key} {k : Key} {n : Nat}
    (h2 : (s.diffs_per_key.map Prod.snd).Nodup)
    (hdpk : sLookup s.diffs_per_key k = some n) :
    ∀ p ∈ sErase s.diffs_per_key k, p.2 ≠ n := by
  intro p hp hpe
  have hmm := mem_sErase hp
  have hkn : (k, n) ∈ s.diffs_per_key := sLookup_mem hdpk
  have := values_unique h2 hmm.1 hkn hpe
  exact hmm.2 (by rw [this])

/-- Invariant components for an `add_diff` branch that inserts an open diff
for key `k` at the fresh index `next_diff_index` after removing the
colliding entry at `n` (the Merge, Replace and KeepBoth outcomes). -/
theorem inv_insert_fresh {Diff Key : Type} [DecidableEq Key]
    {s : PullSourceState Diff Key} {k : Key} {n : Nat} (dnew : Nat → Option Diff)
    (h1 : ∀ p ∈ s.diffs_per_key, (s.diffs p.2).isSome = true ∧ p.2 < s.next_diff_index)
    (h2 : (s.diffs_per_key.map Prod.snd).Nodup)
    (hdpk : sLookup s.diffs_per_key k = some n)
    (hnew : (dnew s.next_diff_index).isSome = true)
    (hold : ∀ j, j ≠ s.next_diff_index → j ≠ n → (dnew j).isSome = (s.diffs j).isSome) :
    (∀ p ∈ sInsert (sErase s.diffs_per_key k) k s.next_diff_index,
        (dnew p.2).isSome = true ∧ p.2 < s.next_diff_index + 1)
    ∧ ((sInsert (sErase s.diffs_per_key k) k s.next_diff_index).map Prod.snd).Nodup := by
  constructor
  · intro p hp
    rcases mem_sInsert hp with rfl | ⟨hpl, _⟩
    · exact ⟨hnew, by omega⟩
    · have ⟨ha, hb⟩ := h1 p (mem_sErase hpl).1
      have hne1 : p.2 ≠ s.next_diff_index := by omega
      have hne2 : p.2 ≠ n := sErase_snd_ne h2 hdpk p hpl
      rw [hold p.2 hne1 hne2]
      exact ⟨ha, by omega⟩
  · simp only [sInsert, List.map]
    refine List.nodup_cons.2 ⟨?_, snd_nodup_sErase (snd_nodup_sErase h2)⟩
    intro hmem
    obtain ⟨p, hp, hpe⟩ := List.mem_map.1 hmem
    have := (h1 p (mem_sErase (mem_sErase hp).1).1).2
    omega

/-- Invariant components for the `Ignore` outcome of `add_diff`: the
previous entry is reinstated at its old index `n`. -/
theorem inv_reinstate {Diff Key : Type} [DecidableEq Key]
    {s : PullSourceState Diff Key} {k : Key} {n : Nat} (dnew : Nat → Option Diff)
    (h1 : ∀ p ∈ s.diffs_per_key, (s.diffs p.2).isSome = true ∧ p.2 < s.next_diff_index)
    (h2 : (s.diffs_per_key.map Prod.snd).Nodup)
    (hdpk : sLookup s.diffs_per_key k = some n)
    (hnew : (dnew n).isSome = true)
    (hold : ∀ j, j ≠ n → (dnew j).isSome = (s.diffs j).isSome) :
    (∀ p ∈ sInsert (sErase s.diffs_per_key k) k n,
        (dnew p.2).isSome = true ∧ p.2 < s.next_diff_index)
    ∧ ((sInsert (sErase s.diffs_per_key k) k n).map Prod.snd).Nodup := by
  have hkn : (k, n) ∈ s.diffs_per_key := sLookup_mem hdpk
  constructor
  · intro p hp
    rcases mem_sInsert hp with rfl | ⟨hpl, _⟩
    · exact ⟨hnew, (h1 _ hkn).2⟩
    · have ⟨ha, hb⟩ := h1 p (mem_sErase hpl).1
      have hne2 : p.2 ≠ n := sErase_snd_ne h2 hdpk p hpl
      rw [hold p.2 hne2]
      exact ⟨ha, hb⟩
  · simp only [sInsert, List.map]
    refine List.nodup_cons.2 ⟨?_, snd_nodup_sErase (snd_nodup_sErase h2)⟩
    intro hmem
    obtain ⟨p, hp, hpe⟩ := List.mem_map.1 hmem
    exact sErase_snd_ne h2 hdpk p (mem_sErase hp).1 hpe

/-- `SourceInv` holds in the initial state. -/
theorem sourceInv_new {Diff Key : Type} [DecidableEq Key] :
    SourceInv (PullSourceState.new Diff Key) := by
  refine ⟨?_, ?_, ?_⟩ <;> simp [PullSourceState.new]

/-- `SourceInv` is preserved by `add_diff`. -/
theorem sourceInv_add {Diff Key : Type} [DecidableEq Key]
    {ops : PullableDiffOps Diff Key} {s s1 : PullSourceState Diff Key} {d : Diff}
    (hi : SourceInv s) (h : add_diff ops s d = some s1) : SourceInv s1 := by
  obtain ⟨h1, h2, h3⟩ := hi
  by_cases hl : has_listening_signal s = false
  · rw [add_diff, if_pos hl] at h
    obtain rfl := Option.some.inj h
    exact ⟨h1, h2, h3⟩
  · rw [add_diff, if_neg hl] at h
    cases hk : ops.get_key d with
    | none =>
      simp only [hk] at h
      obtain rfl := Option.some.inj h
      exact ⟨by simp, by simp, h3⟩
    | some k =>
      simp only [hk] at h
      cases hdpk : sLookup s.diffs_per_key k with
      | none =>
        simp only [hdpk] at h
        obtain rfl := Option.some.inj h
        refine ⟨?_, ?_, h3⟩
        · intro p hp
          rcases mem_sInsert hp with rfl | ⟨hpl, _⟩
          · refine ⟨by simp, ?_⟩
            show s.next_diff_index < s.next_diff_index + 1
            omega
          · have ⟨ha, hb⟩ := h1 p hpl
            have hne : p.2 ≠ s.next_diff_index := by omega
            constructor
            · show ((fun j => if j = s.next_diff_index then some d else s.diffs j) p.2).isSome
                = true
              simp [hne, ha]
            · show p.2 < s.next_diff_index + 1
              omega
        · simp only [sInsert, List.map]
          refine List.nodup_cons.2 ⟨?_, snd_nodup_sErase h2⟩
          intro hmem
          obtain ⟨p, hp, hpe⟩ := List.mem_map.1 hmem
          have := (h1 p (mem_sErase hp).1).2
          omega
      | some n =>
        simp only [hdpk] at h
        cases hdn : s.diffs n with
        | none =>
          simp only [hdn] at h
          exact Option.noConfusion h
        | some prev =>
          simp only [hdn] at h
          cases hm : ops.merge_with_previous d prev with
          | none =>
            simp only [hm] at h
            exact Option.noConfusion h
          | some result =>
            simp only [hm] at h
            cases hre : result.reindex_intermediary_diffs with
            | none =>
              simp only [hre] at h
              cases hout : result.outcome with
              | merge merged =>
                simp only [hout] at h
                obtain rfl := Option.some.inj h
                refine ⟨?_, ?_, h3⟩
                · exact (inv_insert_fresh
                    (fun j => if j = s.next_diff_index then some merged
                      else if j = n then none else s.diffs j)
                    h1 h2 hdpk (by simp)
                    (fun j hj1 hj2 => by simp [hj1, hj2])).1
                · exact (inv_insert_fresh
                    (fun j => if j = s.next_diff_index then some merged
                      else if j = n then none else s.diffs j)
                    h1 h2 hdpk (by simp)
                    (fun j hj1 hj2 => by simp [hj1, hj2])).2
              | replace =>
                simp only [hout] at h
                obtain rfl := Option.some.inj h
                refine ⟨?_, ?_, h3⟩
                · exact (inv_insert_fresh
                    (fun j => if j = s.next_diff_index then some d
                      else if j = n then none else s.diffs j)
                    h1 h2 hdpk (by simp)
                    (fun j hj1 hj2 => by simp [hj1, hj2])).1
                · exact (inv_insert_fresh
                    (fun j => if j = s.next_diff_index then some d
                      else if j = n then none else s.diffs j)
                    h1 h2 hdpk (by simp)
                    (fun j hj1 hj2 => by simp [hj1, hj2])).2
              | ignore =>
                simp only [hout] at h
                obtain rfl := Option.some.inj h
                refine ⟨?_, ?_, h3⟩
                · exact (inv_reinstate
                    (fun j => if j = n then some prev
                      else if j = n then none else s.diffs j)
                    h1 h2 hdpk (by simp)
                    (fun j hj => by simp [hj])).1
                · exact (inv_reinstate
                    (fun j => if j = n then some prev
                      else if j = n then none else s.diffs j)
                    h1 h2 hdpk (by simp)
                    (fun j hj => by simp [hj])).2
              | keepBoth =>
                simp only [hout] at h
                obtain rfl := Option.some.inj h
                refine ⟨?_, ?_, h3⟩
                · exact (inv_insert_fresh
                    (fun j => if j = s.next_diff_index then some d
                      else if j = n then some prev
                      else if j = n then none else s.diffs j)
                    h1 h2 hdpk (by simp)
                    (fun j hj1 hj2 => by simp [hj1, hj2])).1
                · exact (inv_insert_fresh
                    (fun j => if j = s.next_diff_index then some d
                      else if j = n then some prev
                      else if j = n then none else s.diffs j)
                    h1 h2 hdpk (by simp)
                    (fun j hj1 hj2 => by simp [hj1, hj2])).2
              | discardBoth =>
                simp only [hout] at h
                obtain rfl := Option.some.inj h
                refine ⟨?_, snd_nodup_sErase h2, h3⟩
                intro p hp
                have ⟨ha, hb⟩ := h1 p (mem_sErase hp).1
                have hne : p.2 ≠ n := sErase_snd_ne h2 hdpk p hp
                constructor
                · show ((fun j => if j = n then none else s.diffs j) p.2).isSome = true
                  simp [hne, ha]
                · exact hb
            | some re =>
              simp only [hre] at h
              cases hup : updateIntermediaryDiffs ops
                  (fun j => if j = n then none else s.diffs j)
                  (List.range' n (s.next_diff_index - n)) re with
              | none =>
                simp only [hup] at h
                exact Option.noConfusion h
              | some diffs2 =>
                simp only [hup] at h
                have hpres := updateIntermediaryDiffs_isSome hup
                have hold2 : ∀ j, j ≠ n → (diffs2 j).isSome = (s.diffs j).isSome := by
                  intro j hj
                  rw [hpres j]
                  simp [hj]
                cases hout : result.outcome with
                | merge merged =>
                  simp only [hout] at h
                  obtain rfl := Option.some.inj h
                  refine ⟨?_, ?_, h3⟩
                  · exact (inv_insert_fresh
                      (fun j => if j = s.next_diff_index then some merged else diffs2 j)
                      h1 h2 hdpk (by simp)
                      (fun j hj1 hj2 => by
                        simp only [if_neg hj1]
                        exact hold2 j hj2)).1
                  · exact (inv_insert_fresh
                      (fun j => if j = s.next_diff_index then some merged else diffs2 j)
                      h1 h2 hdpk (by simp)
                      (fun j hj1 hj2 => by
                        simp only [if_neg hj1]
                        exact hold2 j hj2)).2
                | replace =>
                  simp only [hout] at h
                  obtain rfl := Option.some.inj h
                  refine ⟨?_, ?_, h3⟩
                  · exact (inv_insert_fresh
                      (fun j => if j = s.next_diff_index then some d else diffs2 j)
                      h1 h2 hdpk (by simp)
                      (fun j hj1 hj2 => by
                        simp only [if_neg hj1]
                        exact hold2 j hj2)).1
                  · exact (inv_insert_fresh
                      (fun j => if j = s.next_diff_index then some d else diffs2 j)
                      h1 h2 hdpk (by simp)
                      (fun j hj1 hj2 => by
                        simp only [if_neg hj1]
                        exact hold2 j hj2)).2
                | ignore =>
                  simp only [hout] at h
                  obtain rfl := Option.some.inj h
                  refine ⟨?_, ?_, h3⟩
                  · exact (inv_reinstate
                      (fun j => if j = n then some prev else diffs2 j)
                      h1 h2 hdpk (by simp)
                      (fun j hj => by
                        simp only [if_neg hj]
                        exact hold2 j hj)).1
                  · exact (inv_reinstate
                      (fun j => if j = n then some prev else diffs2 j)
                      h1 h2 hdpk (by simp)
                      (fun j hj => by
                        simp only [if_neg hj]
                        exact hold2 j hj)).2
                | keepBoth =>
                  simp only [hout] at h
                  obtain rfl := Option.some.inj h
                  refine ⟨?_, ?_, h3⟩
                  · exact (inv_insert_fresh
                      (fun j => if j = s.next_diff_index then some d
                        else if j = n then some prev else diffs2 j)
                      h1 h2 hdpk (by simp)
                      (fun j hj1 hj2 => by
                        simp only [if_neg hj1, if_neg hj2]
                        exact hold2 j hj2)).1
                  · exact (inv_insert_fresh
                      (fun j => if j = s.next_diff_index then some d
                        else if j = n then some prev else diffs2 j)
                      h1 h2 hdpk (by simp)
                      (fun j hj1 hj2 => by
                        simp only [if_neg hj1, if_neg hj2]
                        exact hold2 j hj2)).2
                | discardBoth =>
                  simp only [hout] at h
                  obtain rfl := Option.some.inj h
                  refine ⟨?_, snd_nodup_sErase h2, h3⟩
                  intro p hp
                  have ⟨ha, hb⟩ := h1 p (mem_sErase hp).1
                  have hne : p.2 ≠ n := sErase_snd_ne h2 hdpk p hp
                  constructor
                  · show (diffs2 p.2).isSome = true
                    rw [hold2 p.2 hne]
                    exact ha
                  · exact hb

/-- Cursor-id bound is preserved when a cursor entry for an issued id is
inserted. -/
theorem cursor_bound_sInsert {cursors : List (Nat × Nat)} {id v next : Nat}
    (hid : id < next) (h3 : ∀ p ∈ cursors, p.1 < next) :
    ∀ p ∈ sInsert cursors id v, p.1 < next := by
  intro p hp
  rcases mem_sInsert hp with rfl | ⟨hpl, _⟩
  · exact hid
  · exact h3 p hpl

/-- `SourceInv` is preserved by `pull_signal` called with an issued id. -/
theorem sourceInv_pull {Diff Key : Type} [DecidableEq Key]
    {ops : PullableDiffOps Diff Key} {s : PullSourceState Diff Key} {id : Nat}
    (hid : id < s.next_signal_id) (hi : SourceInv s) :
    SourceInv (pull_signal ops s id).1 := by
  obtain ⟨h1, h2, h3⟩ := hi
  simp only [pull_signal]
  cases hm : sLookup s.signal_last_diff_numbers id with
  | none =>
    exact ⟨by simp, by simp, cursor_bound_sInsert hid h3⟩
  | some last =>
    by_cases he : last = s.next_diff_index - 1
    · simp only [if_pos he]
      exact ⟨h1, h2, cursor_bound_sInsert hid h3⟩
    · simp only [if_neg he]
      by_cases hg : ((List.range' (last + 1) (s.next_diff_index - (last + 1))).filterMap
          s.diffs).any (fun d => (ops.get_key d).isNone) = true
      · simp only [hg, if_true]
        exact ⟨by simp, by simp, cursor_bound_sInsert hid h3⟩
      · simp only [hg, if_false]
        exact ⟨by simp, by simp, cursor_bound_sInsert hid h3⟩

/-- `SourceInv` is preserved by `update_keys`. -/
theorem sourceInv_update {Diff Key : Type} [DecidableEq Key]
    {ops : PullableDiffOps Diff Key} {s : PullSourceState Diff Key} {f : Key → Key}
    (hi : SourceInv s) : SourceInv (update_keys ops s f) := by
  obtain ⟨h1, h2, h3⟩ := hi
  refine ⟨?_, ?_, h3⟩
  · intro p hp
    have hp2 := collect_mem hp
    obtain ⟨q, hq, hqe⟩ := List.mem_map.1 hp2
    obtain ⟨hqs, hqlt⟩ := h1 q hq
    subst hqe
    constructor
    · cases hd : s.diffs q.2 with
      | none => rw [hd] at hqs; simp at hqs
      | some dd =>
        show (Option.map _ (s.diffs q.2)).isSome = true
        rw [hd]
        rfl
    · exact hqlt
  · apply collect_snd_nodup
    have hmm : (s.diffs_per_key.map (fun p => (f p.1, p.2))).map Prod.snd =
        s.diffs_per_key.map Prod.snd := by
      rw [List.map_map]
      rfl
    rw [hmm]
    exact h2

/-- `SourceInv` is preserved by `get_next_signal_id`. -/
theorem sourceInv_issue {Diff Key : Type} [DecidableEq Key]
    {s : PullSourceState Diff Key} (hi : SourceInv s) :
    SourceInv (get_next_signal_id s).2 := by
  obtain ⟨h1, h2, h3⟩ := hi
  refine ⟨h1, h2, ?_⟩
  intro p hp
  have := h3 p hp
  show p.1 < s.next_signal_id + 1
  omega

/-- Every reachable pull-source state satisfies the invariant. -/
theorem reachable_inv {Diff Key : Type} [DecidableEq Key]
    {ops : PullableDiffOps Diff Key} {s : PullSourceState Diff Key}
    (h : Reachable ops s) : SourceInv s := by
  induction h with
  | new => exact sourceInv_new
  | add _ heq ih => exact sourceInv_add ih heq
  | pull hid _ ih => exact sourceInv_pull hid ih
  | update _ ih => exact sourceInv_update ih
  | issue _ ih => exact sourceInv_issue ih

/-- Claim C10: in every state reachable from `new` by any sequence of
`add_diff`, `pull_signal` (with an issued id), `update_keys` and
`get_next_signal_id` calls, every sequence number stored in the compaction
index (`diffs_per_key`) is a key of the diff log (`diffs`): the compaction
index never points at a diff that has been removed from the log. -/
theorem compaction_index_points_into_log {Diff Key : Type} [DecidableEq Key]
    {ops : PullableDiffOps Diff Key} {s : PullSourceState Diff Key}
    (h : Reachable ops s) :
    ∀ k n, sLookup s.diffs_per_key k = some n → (s.diffs n).isSome = true :=
  fun _ n hl => ((reachable_inv h).1 (_, n) (sLookup_mem hl)).1

/-- The pull source reached by: issue id 1, pull 1, add `Insert 5`. -/
def c10state : PullSourceState (MapDiff Nat) Nat :=
  (add_diff (mapOps Nat)
    (pull_signal (mapOps Nat)
      (get_next_signal_id (PullSourceState.new (MapDiff Nat) Nat)).2 1).1
    (MapDiff.insert 5)).getD (PullSourceState.new (MapDiff Nat) Nat)

theorem c10state_reachable : Reachable (mapOps Nat) c10state := by
  have hs : add_diff (mapOps Nat)
      (pull_signal (mapOps Nat)
        (get_next_signal_id (PullSourceState.new (MapDiff Nat) Nat)).2 1).1
      (MapDiff.insert 5) = some c10state := rfl
  have hlt : 1 <
      (get_next_signal_id (PullSourceState.new (MapDiff Nat) Nat)).2.next_signal_id := by
    decide
  exact Reachable.add (Reachable.pull hlt (Reachable.issue Reachable.new)) hs

/-- Witness for C10: in the concrete reachable state `c10state` the
compaction index maps key 5 to sequence number 1, and slot 1 of the diff
log is indeed occupied. -/
theorem compaction_index_points_into_log_witness :
    (c10state.diffs 1).isSome = true :=
  compaction_index_points_into_log c10state_reachable 5 1 rfl

/-- The outcome of one `poll_change` call (`Poll<Option<Item>>` in Rust):
no update yet, a delivered item, or (`ready none`) a closed signal. -/
inductive PollResult (I : Type) where
  | pending
  | ready (x : Option I)
deriving DecidableEq, Repr

/-- `HashMapEvent` from hash_map/event.rs: a snapshot plus a batch of
diffs. The `im::HashMap` snapshot is modelled by an opaque type `M`. -/
structure HashMapEvent (M K : Type) where
  snapshot : M
  diffs : List (MapDiff K)
deriving DecidableEq, Repr

/-- Modelled from the spec: the pull-source-backed mutable hash-map
container state (`hash_map` plus a `StructrualSignalPullSource<MapDiff>`)
is missing from src — the file src/src/hash_map/hash_map.rs is a stale
channel-based predecessor that neither type-checks against event.rs's
`diffs` field nor provides the `PullSourceHost` impl that
map_transforms.rs requires. Spec §4.4 and the surviving vector container
(vector/vector.rs, which realizes the same host pattern) fix its shape:
the container holds the authoritative map and a pull source for its
`MapDiff` stream. -/
structure MutableHashMapState (M K : Type) where
  hash_map : M
  pull_source : PullSourceState (MapDiff K) K

/-- Modelled from the spec (§4.4, "On subscribe, obtains a fresh id from
the shared log"), mirroring `PullSourceStructuralSignal::new`: subscribing
issues a fresh consumer id and touches nothing else. -/
def hashMapAsSignal {M K : Type} (h : MutableHashMapState M K) :
    Nat × MutableHashMapState M K :=
  ((get_next_signal_id h.pull_source).1,
    { h with pull_source := (get_next_signal_id h.pull_source).2 })

/-- Modelled from the spec (§4.4), mirroring
`PullSourceStructuralSignal::poll_change` plus the host's `make_event`
(as in vector/vector.rs): pull the consumer's new diffs; an empty batch is
"pending", a non-empty batch is delivered with the container's current
snapshot attached. -/
def pollHashMapSignal {M K : Type} [DecidableEq K] (h : MutableHashMapState M K)
    (id : Nat) : MutableHashMapState M K × PollResult (HashMapEvent M K) :=
  let r := pull_signal (mapOps K) h.pull_source id
  let h1 := { h with pull_source := r.1 }
  if r.2.isEmpty then (h1, PollResult.pending)
  else (h1, PollResult.ready (some { snapshot := h.hash_map, diffs := r.2 }))

/-- Claim C9: a consumer's first-ever poll of a collection signal yields
exactly one full-replace diff whose attached snapshot equals the
container's state at poll time, regardless of how much history preceded
subscription (any reachable pull-source state); in particular, for the
empty mutable hash map, subscribing and polling once yields the batch
`[Replace]` with the empty snapshot attached (see the witness). -/
theorem first_poll_bootstrap_full_replace {M K : Type} [DecidableEq K]
    (host : MutableHashMapState M K)
    (hr : Reachable (mapOps K) host.pull_source) :
    (pollHashMapSignal (hashMapAsSignal host).2 (hashMapAsSignal host).1).2 =
      PollResult.ready (some { snapshot := host.hash_map, diffs := [MapDiff.replace] }) := by
  have h3 := (reachable_inv hr).2.2
  have hnone : sLookup host.pull_source.signal_last_diff_numbers
      host.pull_source.next_signal_id = none := by
    cases hm : sLookup host.pull_source.signal_last_diff_numbers
        host.pull_source.next_signal_id with
    | none => rfl
    | some v =>
      have := h3 _ (sLookup_mem hm)
      simp at this
  simp [pollHashMapSignal, hashMapAsSignal, get_next_signal_id, pull_signal,
    hnone, mapOps, List.isEmpty]

/-- The empty spec-modelled hash-map host: empty snapshot, fresh source. -/
def emptyHashMapHost : MutableHashMapState (List (Nat × Nat)) Nat :=
  { hash_map := [], pull_source := PullSourceState.new (MapDiff Nat) Nat }

/-- Witness for C9: subscribing to the empty mutable hash map and polling
once yields the batch `[Replace]` with the empty snapshot attached. -/
theorem first_poll_bootstrap_full_replace_witness :
    (pollHashMapSignal (hashMapAsSignal emptyHashMapHost).2
        (hashMapAsSignal emptyHashMapHost).1).2 =
      PollResult.ready (some { snapshot := [], diffs := [MapDiff.replace] }) :=
  first_poll_bootstrap_full_replace emptyHashMapHost Reachable.new

/-- One tap of the broadcaster: the unbounded queue between the
broadcaster's sender and the tap's receiver, plus whether the sender side
has been closed. -/
structure TapState (I : Type) where
  buf : List I
  closed : Bool
deriving DecidableEq, Repr

/-- `StructuralSignalBroadcasterState` from structural_signal_ext.rs. The
upstream signal is modelled by the script of its successive `poll_change`
results (an empty script means the upstream reports no update). -/
structure BroadcasterState (I : Type) where
  upstream : List (PollResult I)
  most_recent_event : Option I
  taps : List (TapState I)
deriving DecidableEq, Repr

/-- `notify_senders` from util.rs: push a copy of the event onto every
still-open tap queue. (The Rust code also prunes closed senders from the
vec; pruning changes nothing a receiver can observe, so closed taps are
left in place here.) -/
def notifyTaps {I : Type} (e : I) (taps : List (TapState I)) : List (TapState I) :=
  taps.map (fun t => if t.closed then t else { t with buf := t.buf ++ [e] })

/-- `close_senders` from util.rs: close every tap's channel. -/
def closeTaps {I : Type} (taps : List (TapState I)) : List (TapState I) :=
  taps.map (fun t => { t with closed := true })

/-- `StructuralSignalBroadcaster::get_signal`: create a new tap, priming
its queue with the most recent upstream event when one exists; returns the
new state and the tap's index. -/
def get_signal {I : Type} (s : BroadcasterState I) : BroadcasterState I × Nat :=
  let buf0 : List I :=
    match s.most_recent_event with
    | some e => [e]
    | none => []
  ({ s with taps := s.taps ++ [{ buf := buf0, closed := false }] }, s.taps.length)

/-- `StructuralSignalBroadcasterState::pull_in_new_changes`: poll the
shared upstream once; on a new item record it as most recent and fan it
out, on upstream exhaustion close every tap; returns whether the upstream
made progress. -/
def pull_in_new_changes {I : Type} (s : BroadcasterState I) :
    BroadcasterState I × Bool :=
  match s.upstream with
  | [] => (s, false)
  | u :: rest =>
    match u with
    | PollResult.pending => ({ s with upstream := rest }, false)
    | PollResult.ready (some e) =>
      ({ s with
          upstream := rest
          most_recent_event := some e
          taps := notifyTaps e s.taps }, true)
    | PollResult.ready none =>
      ({ s with upstream := rest, taps := closeTaps s.taps }, true)

/-- `receiver.poll_next_unpin` for one tap: deliver the oldest queued
item, report closed when the queue is drained and the channel is closed,
otherwise report no update. -/
def tapRecvPoll {I : Type} (t : TapState I) : TapState I × PollResult I :=
  match t.buf with
  | x :: rest => ({ t with buf := rest }, PollResult.ready (some x))
  | [] => if t.closed then (t, PollResult.ready none) else (t, PollResult.pending)

/-- `BroadcastedStructuralSignal::poll_change` for the tap at index `i`:
first check the tap's own queue; if it has nothing, try to advance the
shared upstream once and re-check the queue. -/
def tap_poll_change {I : Type} (s : BroadcasterState I) (i : Nat) :
    BroadcasterState I × PollResult I :=
  match s.taps.get? i with
  | none => (s, PollResult.pending)
  | some t =>
    let r := tapRecvPoll t
    match r.2 with
    | PollResult.ready x => ({ s with taps := s.taps.set i r.1 }, PollResult.ready x)
    | PollResult.pending =>
      let p := pull_in_new_changes s
      if p.2 then
        match p.1.taps.get? i with
        | none => (p.1, PollResult.pending)
        | some t2 =>
          let r2 := tapRecvPoll t2
          ({ p.1 with taps := p.1.taps.set i r2.1 }, r2.2)
      else (p.1, PollResult.pending)

theorem set_concat_length {α : Type} (l : List α) (a b : α) :
    (l ++ [a]).set l.length b = l ++ [b] := by
  induction l with
  | nil => rfl
  | cons x r ih => simp [List.set, ih]

/-- Claim C8: if the broadcaster's upstream has already produced at least
one item (`most_recent_event` is set) and currently reports no update
(empty script), then a tap created afterwards by `get_signal` receives the
most recent item exactly once as its first poll result, and an immediately
repeated poll of the same tap returns pending, not a repeat of the item. -/
theorem broadcaster_replay_latest_once {I : Type} (s : BroadcasterState I) (e : I)
    (h1 : s.most_recent_event = some e) (h2 : s.upstream = []) :
    (tap_poll_change (get_signal s).1 (get_signal s).2).2 = PollResult.ready (some e)
    ∧ (tap_poll_change (tap_poll_change (get_signal s).1 (get_signal s).2).1
        (get_signal s).2).2 = PollResult.pending := by
  have hget1 : ((get_signal s).1).taps.get? (get_signal s).2 =
      some { buf := [e], closed := false } := by
    simp [get_signal, h1, List.get?_eq_getElem?, List.getElem?_concat_length]
  have hfirst : tap_poll_change (get_signal s).1 (get_signal s).2 =
      ({ s with taps := s.taps ++ [{ buf := [], closed := false }] },
        PollResult.ready (some e)) := by
    simp only [tap_poll_change, hget1, tapRecvPoll]
    simp [get_signal, h1, set_concat_length]
  refine ⟨by rw [hfirst], ?_⟩
  rw [hfirst]
  have hget2 : (({ s with taps := s.taps ++ [{ buf := [], closed := false }] }
      : BroadcasterState I).taps).get? (get_signal s).2 =
      some { buf := [], closed := false } := by
    simp [get_signal, List.get?_eq_getElem?, List.getElem?_concat_length]
  simp only [tap_poll_change, hget2, tapRecvPoll]
  simp [pull_in_new_changes, h2]

/-- A broadcaster over a `Nat` upstream that has delivered the single item
7 to one earlier tap: after that tap's poll the script is exhausted and
`most_recent_event` is 7. -/
def c8base : BroadcasterState Nat :=
  (tap_poll_change
    (get_signal { upstream := [PollResult.ready (some 7)],
                  most_recent_event := none, taps := [] }).1
    (get_signal { upstream := [PollResult.ready (some 7)],
                  most_recent_event := none, taps := [] }).2).1

/-- Witness for C8: a second tap created on `c8base` replays item 7 on its
first poll and reports pending on the immediately repeated poll. -/
theorem broadcaster_replay_latest_once_witness :
    (tap_poll_change (get_signal c8base).1 (get_signal c8base).2).2 =
      PollResult.ready (some 7)
    ∧ (tap_poll_change (tap_poll_change (get_signal c8base).1 (get_signal c8base).2).1
        (get_signal c8base).2).2 = PollResult.pending :=
  broadcaster_replay_latest_once c8base 7 rfl rfl

end SignalsIm
